import Mathlib

/-!
Verification development for the scout variant ingestion core
(src/scout/adapter/mongo/variant.py, class VariantHandler).

The document store is modelled as a list of variant documents; `find`,
`insert_one`, `delete_many`, `find_one_and_update` and `find_one_and_replace`
become list filtering, appending and mapping, with the store's unique `_id`
constraint carried as a `Nodup` hypothesis on the list of ids.  Python
truthiness (None, 0 and "" are falsy) is modelled explicitly where the code
relies on it.  Numeric scores use `Int`.
-/

/-- A gene entry as it appears on a variant document; `update_compounds`
(variant.py line 349) copies exactly these four fields into a compound's
gene summary.  The source field names `region_annotation` and
`functional_annotation` are shortened to `region_ann` / `functional_ann`. -/
structure GeneRef where
  hgnc_id : Nat
  hgnc_symbol : Option String
  region_ann : Option String
  functional_ann : Option String
deriving DecidableEq

/-- A compound reference on a variant document (variant.py lines 321-360). -/
structure CompoundRef where
  variant : String
  combined_score : Int
  rank_score : Option Int := none
  not_loaded : Option Bool := none
  genes : List GeneRef := []
deriving DecidableEq

/-- A variant document in the store. -/
structure StoredVariant where
  id : String
  variant_id : String
  case_id : String
  institute : String
  category : String
  variant_type : String
  chromosome : String
  position : Nat
  rank_score : Option Int
  variant_rank : Option Nat := none
  compounds : List CompoundRef := []
  genes : List GeneRef := []
  hgnc_ids : List Nat := []
deriving DecidableEq

/-- A raw record produced by the VCF reader (external interface, spec section 6):
chromosome, position, alleles, the nullable rank score extracted from INFO, and
the compound/gene annotations the builder carries onto the variant.  `fatal`
marks a record whose parsing/building raises an unexpected exception, modelling
the fatal error path of load_variants (variant.py line 567). -/
structure RawRecord where
  chrom : String
  pos : Nat
  ref : String
  alt : String
  rankScore : Option Int
  compounds : List CompoundRef := []
  genes : List GeneRef := []
  fatal : Bool := false
deriving DecidableEq

/-- A gene record from the hgnc catalog (chromosome and footprint).  The
source field `end` is named `stop` because `end` is reserved in Lean. -/
structure Gene where
  chromosome : String
  start : Nat
  stop : Nat
deriving DecidableEq

/-- A case document: id, owner institute, collaborator institutes, causative
storage ids (absent field modelled as `none`) and the registered vcf files,
each file being its list of raw records. -/
structure CaseObj where
  id : String
  owner : String
  collaborators : List String := []
  causatives : Option (List String) := none
  vcf_snv : Option (List RawRecord) := none
  vcf_sv : Option (List RawRecord) := none
  vcf_cancer : Option (List RawRecord) := none
  vcf_snv_research : Option (List RawRecord) := none
  vcf_sv_research : Option (List RawRecord) := none
  vcf_cancer_research : Option (List RawRecord) := none
deriving DecidableEq

abbrev Store := List StoredVariant

/-- The ids of a store; the document store enforces `_id` uniqueness, carried
as `(idsOf store).Nodup` hypotheses. -/
abbrev idsOf (store : Store) : List String := store.map (fun v => v.id)

/-- Python truthiness of an optional natural number: None and 0 are falsy. -/
def truthyOptNat : Option Nat → Bool
  | none => false
  | some n => n != 0

/-- Python truthiness of an optional string: None and "" are falsy. -/
def truthyOptStr : Option String → Bool
  | none => false
  | some s => s != ""

/-- Python `x or d` for an optional numeric `x`: None and 0 both fall back. -/
def pyOrInt (x : Option Int) (d : Int) : Int :=
  match x with
  | none => d
  | some v => if v = 0 then d else v

/-- Substring test for the two-character needle used by the code:
`'MT' in variant.CHROM` (variant.py line 527). -/
def hasMTChars : List Char → Bool
  | [] => false
  | 'M' :: 'T' :: _ => true
  | _ :: rest => hasMTChars rest

/-- Modelled from the spec: `parse_rank_score` (scout/parse/variant/rank_score.py
is not under src); the spec treats the rank score as a nullable number carried
by the record, absent when the INFO field is missing. -/
def parse_rank_score (raw : Option Int) : Option Int := raw

/-- mt_variant = 'MT' in variant.CHROM (variant.py line 527). -/
def mt_variant (r : RawRecord) : Bool := hasMTChars r.chrom.toList

/-- The rank filter decision (variant.py line 529):
(rank_score is None) or (rank_score > rank_threshold) or mt_variant. -/
def passes (threshold : Int) (r : RawRecord) : Bool :=
  match parse_rank_score r.rankScore with
  | none => true
  | some s => decide (threshold < s) || mt_variant r

/-- Modelled from the spec: the identity fingerprint of build_variant
(scout/build is not under src) is deterministic in case id, chromosome,
position, reference/alternate alleles and category (spec sections 3 and 4.2). -/
def fingerprint (case_id : String) (r : RawRecord) (category : String) : String :=
  String.intercalate "_" [case_id, r.chrom, toString r.pos, r.ref, r.alt, category]

/-- Modelled from the spec: the positional variant id shared across variant
types for the same call (spec section 3). -/
def positional_id (r : RawRecord) (category : String) : String :=
  String.intercalate "_" [r.chrom, toString r.pos, r.ref, r.alt, category]

/-- Modelled from the spec: build_variant (scout/build is not under src)
deterministically turns one raw record plus case context into a normalized
variant entity (spec section 4.2); the institute is the case owner, since
load_variants resolves the institute by the owner id (variant.py line 455). -/
def build_variant (r : RawRecord) (case_obj : CaseObj)
    (variant_type category : String) : StoredVariant :=
  { id := fingerprint case_obj.id r category
  , variant_id := positional_id r category
  , case_id := case_obj.id
  , institute := case_obj.owner
  , category := category
  , variant_type := variant_type
  , chromosome := r.chrom
  , position := r.pos
  , rank_score := r.rankScore
  , variant_rank := none
  , compounds := r.compounds
  , genes := r.genes
  , hgnc_ids := r.genes.map (fun g => g.hgnc_id) }

/-- load_variant (variant.py lines 416-430): insert_one; a duplicate `_id`
raises (DuplicateKeyError turned into IntegrityError), modelled as `none`. -/
def load_variant (store : Store) (v : StoredVariant) : Option Store :=
  if store.any (fun w => w.id == v.id) then none else some (store ++ [v])

/-- delete_variants (variant.py lines 399-414): delete_many on case_id and
variant_type, with category added to the query only when given. -/
def delete_variants (store : Store) (case_id variant_type : String)
    (category : Option String) : Store :=
  store.filter (fun v =>
    !(v.case_id == case_id && v.variant_type == variant_type &&
      (match category with
       | none => true
       | some c => v.category == c)))

/-- File resolution of load_variants (variant.py lines 459-474). -/
def variantFileOf (case_obj : CaseObj) (variant_type category : String) :
    Option (List RawRecord) :=
  if variant_type == "clinical" then
    if category == "snv" then case_obj.vcf_snv
    else if category == "sv" then case_obj.vcf_sv
    else if category == "cancer" then case_obj.vcf_cancer
    else none
  else if variant_type == "research" then
    if category == "snv" then case_obj.vcf_snv_research
    else if category == "sv" then case_obj.vcf_sv_research
    else if category == "cancer" then case_obj.vcf_cancer_research
    else none
  else none

/-- The outcome of the region derivation (variant.py lines 499-512). -/
inductive RegionDecision where
  | invalid
  | ok (region : Option (String × Nat × Nat)) (threshold : Int)
deriving DecidableEq

/-- Region derivation of load_variants (variant.py lines 499-512): a gene
overrides chrom/start/end with the 5000-padded footprint (start clamped at 0);
a truthy chrom demands truthy start and end (`if not (start and end)` raises
SyntaxError) and defaults the threshold to -1000, otherwise the threshold
defaults to 0 and no region is used.  Python `or` on the threshold treats 0 as
falsy, hence `pyOrInt`. -/
def deriveRegion (chrom0 : Option String) (startPos endPos : Option Nat)
    (gene_obj : Option Gene) (rank_threshold : Option Int) : RegionDecision :=
  let chrom := match gene_obj with
    | some g => some g.chromosome
    | none => chrom0
  let s := match gene_obj with
    | some g => some (max (g.start - 5000) 0)
    | none => startPos
  let e := match gene_obj with
    | some g => some (g.stop + 5000)
    | none => endPos
  if truthyOptStr chrom then
    if truthyOptNat s && truthyOptNat e then
      RegionDecision.ok (some (chrom.getD "", s.getD 0, e.getD 0))
        (pyOrInt rank_threshold (-1000))
    else RegionDecision.invalid
  else RegionDecision.ok none (pyOrInt rank_threshold 0)

/-- Membership of a raw record in a query region (the region-filterable record
stream of the external VCF reader, spec section 6). -/
def inRegionB (c : String) (s e : Nat) (r : RawRecord) : Bool :=
  r.chrom == c && decide (s ≤ r.pos) && decide (r.pos ≤ e)

/-- The (optionally region-restricted) record stream `vcf_obj(region)`
(variant.py line 526). -/
def streamRecords (file : List RawRecord) (region : Option (String × Nat × Nat)) :
    List RawRecord :=
  match region with
  | none => file
  | some (c, s, e) => file.filter (inRegionB c s e)

/-- Result of the streaming loop: completed with the inserted count, or
aborted by an unexpected exception with the store as it was at that point. -/
inductive StreamRes where
  | done (store : Store) (nr_inserted : Nat)
  | aborted (store : Store)
deriving DecidableEq

/-- The streaming loop of load_variants (variant.py lines 526-565): each
record passing the rank filter is built and inserted; an IntegrityError
(duplicate) is swallowed (`except IntegrityError: pass`); any other exception
(modelled by `fatal`) aborts with the store as accumulated so far. -/
def streamLoop (case_obj : CaseObj) (variant_type category : String)
    (threshold : Int) : Store → Nat → List RawRecord → StreamRes
  | store, n, [] => StreamRes.done store n
  | store, n, r :: rs =>
    if passes threshold r then
      if r.fatal then StreamRes.aborted store
      else
        match load_variant store (build_variant r case_obj variant_type category) with
        | some store' => streamLoop case_obj variant_type category threshold store' (n + 1) rs
        | none => streamLoop case_obj variant_type category threshold store n rs
    else streamLoop case_obj variant_type category threshold store n rs

/-- Scope predicate of update_variants (variant.py lines 297-301): the query
on case_id, category and variant_type. -/
def inScopeB (case_id category variant_type : String) (v : StoredVariant) : Bool :=
  v.case_id == case_id && v.category == category && v.variant_type == variant_type

/-- Mongo comparison for a descending rank_score sort: BSON null orders below
every number, so an absent score sorts last in descending order. -/
def scoreLe : Option Int → Option Int → Bool
  | none, _ => true
  | some _, none => false
  | some a, some b => decide (a ≤ b)

/-- Stable insertion for a descending rank_score sort: `v` (earlier in find
order) is placed before the first `w` with `w.rank_score ≤ v.rank_score`,
so equal scores keep find order. -/
def insertByScore (v : StoredVariant) : List StoredVariant → List StoredVariant
  | [] => [v]
  | w :: ws =>
    if scoreLe w.rank_score v.rank_score then v :: w :: ws
    else w :: insertByScore v ws

/-- Stable descending sort by rank_score (the `.sort('rank_score',
pymongo.DESCENDING)` cursor of variant.py line 301). -/
def sortDescRank : List StoredVariant → List StoredVariant
  | [] => []
  | v :: vs => insertByScore v (sortDescRank vs)

/-- The `index + 1` rank assignment of update_variants (variant.py lines
306-317) as an association list from `_id` to rank. -/
def rankPairs : Nat → List StoredVariant → List (String × Nat)
  | _, [] => []
  | n, v :: vs => (v.id, n) :: rankPairs (n + 1) vs

/-- Lookup in the rank assignment. -/
def lookupA (assign : List (String × Nat)) (x : String) : Option Nat :=
  (assign.find? (fun p => p.1 == x)).map (fun p => p.2)

/-- The rank assignment computed by update_variants for one scope. -/
def assignment (store : Store) (case_id category variant_type : String) :
    List (String × Nat) :=
  rankPairs 1 (sortDescRank (store.filter (inScopeB case_id category variant_type)))

/-- The per-document effect of `find_one_and_update({'_id': ...},
{'$set': {'variant_rank': index + 1}})`. -/
def applyAssignment (assign : List (String × Nat)) (v : StoredVariant) :
    StoredVariant :=
  match lookupA assign v.id with
  | some r => { v with variant_rank := some r }
  | none => v

/-- update_variants (variant.py lines 286-319): rank every variant of the
(case, category, variant_type) scope by descending rank_score, writing
`variant_rank := index + 1` back by `_id`. -/
def update_variants (store : Store) (case_id category variant_type : String) :
    Store :=
  store.map (applyAssignment (assignment store case_id category variant_type))

/-- The compound rewrite of update_compounds (variant.py lines 334-360): a
reference whose target is not found is skipped by `continue` (dropped from the
output); a found target contributes its rank_score, `not_loaded = False` and
its gene summaries (exactly the four GeneRef fields, lines 349-354). -/
def updateCompoundList (findTarget : String → Option StoredVariant) :
    List CompoundRef → List CompoundRef
  | [] => []
  | c :: cs =>
    match findTarget c.variant with
    | none => updateCompoundList findTarget cs
    | some t =>
      { c with rank_score := t.rank_score
             , not_loaded := some false
             , genes := t.genes } :: updateCompoundList findTarget cs

/-- update_compounds (variant.py lines 321-360) applied to one variant. -/
def update_compounds (findTarget : String → Option StoredVariant)
    (v : StoredVariant) : List CompoundRef :=
  updateCompoundList findTarget v.compounds

/-- Stable insertion for the descending combined_score sort of compounds
(`sorted(..., key=lambda compound: -compound['combined_score'])`,
variant.py lines 609-610). -/
def insertByCombined (c : CompoundRef) : List CompoundRef → List CompoundRef
  | [] => [c]
  | d :: ds =>
    if decide (d.combined_score ≤ c.combined_score) then c :: d :: ds
    else d :: insertByCombined c ds

/-- Stable descending sort of compounds by combined_score. -/
def sortCompoundsDesc : List CompoundRef → List CompoundRef
  | [] => []
  | c :: cs => insertByCombined c (sortCompoundsDesc cs)

/-- Modelled from the spec: build_query (scout/adapter/mongo/query.py is not
under src); per spec sections 4.5 and 4.6 a region query matches the case's
variants of the category/type whose position lies in the chrom:start-end
interval. -/
def regionQueryMatchB (case_id category variant_type chrom : String)
    (s e : Nat) (v : StoredVariant) : Bool :=
  v.case_id == case_id && v.category == category &&
    v.variant_type == variant_type && v.chromosome == chrom &&
    decide (s ≤ v.position) && decide (v.position ≤ e)

/-- The per-document effect of the region-bounded compound refresh: a region
variant with a nonempty compound list gets its compounds rewritten against
the region dictionary and re-sorted; every other document is untouched. -/
def refreshFun (regionVars : Store) (inR : StoredVariant → Bool)
    (v : StoredVariant) : StoredVariant :=
  if inR v && !v.compounds.isEmpty then
    { v with compounds :=
        sortCompoundsDesc (updateCompoundList
          (fun tid => regionVars.find? (fun w => w.id == tid)) v.compounds) }
  else v

/-- The region-bounded compound refresh of load_variants (variant.py lines
576-612): fetch the region's variants, index them by `_id`, and for every such
variant with a nonempty compound list rewrite and re-sort its compounds,
writing the document back by `_id`. -/
def refreshRegion (store : Store) (case_id variant_type category chrom : String)
    (s e : Nat) : Store :=
  let inR := regionQueryMatchB case_id category variant_type chrom s e
  store.map (refreshFun (store.filter inR) inR)

/-- Outcome of one load_variants call. -/
inductive LoadOutcome where
  | ok (nr_inserted : Nat)
  | missingFile
  | invalidRegion
  | ingestion
deriving DecidableEq

/-- load_variants (variant.py lines 432-616): resolve the file (SyntaxError
when none registered), derive region and threshold, stream the records through
the rank filter into the store, delete the case's variants of the variant_type
(no category passed, line 570) and re-raise on a fatal error, then recompute
variant_rank for the scope and, for region loads, refresh the compounds of the
region's variants. -/
def load_variants (store : Store) (case_obj : CaseObj)
    (variant_type category : String) (rank_threshold : Option Int)
    (chrom0 : Option String) (startPos endPos : Option Nat)
    (gene_obj : Option Gene) : Store × LoadOutcome :=
  match variantFileOf case_obj variant_type category with
  | none => (store, LoadOutcome.missingFile)
  | some file =>
    match deriveRegion chrom0 startPos endPos gene_obj rank_threshold with
    | RegionDecision.invalid => (store, LoadOutcome.invalidRegion)
    | RegionDecision.ok region threshold =>
      match streamLoop case_obj variant_type category threshold store 0
          (streamRecords file region) with
      | StreamRes.aborted abortStore =>
        (delete_variants abortStore case_obj.id variant_type none,
         LoadOutcome.ingestion)
      | StreamRes.done store1 nr_inserted =>
        let store2 := update_variants store1 case_obj.id category variant_type
        let store3 := match region with
          | none => store2
          | some (c, s, e) =>
            refreshRegion store2 case_obj.id variant_type category c s e
        (store3, LoadOutcome.ok nr_inserted)

/-- get_causatives (variant.py lines 214-228): unwind the causatives arrays of
the institute's cases (those listing it as collaborator and having a
causatives field) and group, i.e. deduplicate. -/
def get_causatives (cases : List CaseObj) (institute_id : String) :
    List String :=
  (((cases.filter (fun c =>
      c.collaborators.contains institute_id && c.causatives.isSome)).map
    (fun c => c.causatives.getD [])).flatten).dedup

/-- check_causatives (variant.py lines 230-268): scope by the case's owner (or
the institute), drop the case's own causatives, resolve the remaining storage
ids to positional variant_ids through the variant collection, and return the
case's (or institute's) variants matching those positional ids. -/
def check_causatives (store : Store) (cases : List CaseObj)
    (case_obj : Option CaseObj) (institute_id0 : Option String) :
    List StoredVariant :=
  let institute_id := match case_obj with
    | some c => c.owner
    | none => institute_id0.getD ""
  let ids0 := get_causatives cases institute_id
  if ids0.isEmpty then []
  else
    let ids1 := match case_obj with
      | some c => ids0.filter (fun i => !(c.causatives.getD []).contains i)
      | none => ids0
    let positional :=
      (store.filter (fun w => ids1.contains w.id)).map (fun w => w.variant_id)
    store.filter (fun v =>
      positional.contains v.variant_id &&
        (match case_obj with
         | some c => v.case_id == c.id
         | none => v.institute == institute_id))

/-- Mongo null ordering for an ascending variant_rank sort: null first. -/
def rankLe : Option Nat → Option Nat → Bool
  | none, _ => true
  | some _, none => false
  | some a, some b => decide (a ≤ b)

/-- Stable insertion for an ascending variant_rank sort. -/
def insertByRankAsc (v : StoredVariant) : List StoredVariant → List StoredVariant
  | [] => [v]
  | w :: ws =>
    if rankLe v.variant_rank w.variant_rank then v :: w :: ws
    else w :: insertByRankAsc v ws

/-- Stable ascending sort by variant_rank. -/
def sortAscRank : List StoredVariant → List StoredVariant
  | [] => []
  | v :: vs => insertByRankAsc v (sortAscRank vs)

/-- Modelled from the spec: the part of build_query
(scout/adapter/mongo/query.py is not under src) used by `variants`
(variant.py line 168): case- and category-scoped, with an explicit
variant_id list when supplied (spec section 4.6). -/
def buildQueryListB (case_id : String) (variant_ids : List String)
    (category : String) (v : StoredVariant) : Bool :=
  v.case_id == case_id && v.category == category &&
    (variant_ids.isEmpty || variant_ids.contains v.variant_id)

/-- The sorted, matched cursor of `variants` before skip/limit. -/
def variantsSorted (store : Store) (case_id : String)
    (variant_ids : List String) (category : String) (sort_key : String) :
    List StoredVariant :=
  let matched := store.filter (buildQueryListB case_id variant_ids category)
  if sort_key == "variant_rank" then sortAscRank matched
  else if sort_key == "rank_score" then sortDescRank matched
  else matched

/-- Mongo skip/limit semantics: skip first, then a limit of 0 means no limit
(`nr_of_variants = 0  # This will return all variants`, variant.py line 163). -/
def mongoSkipLimit (skip : Nat) (limit : Int) (l : List StoredVariant) :
    List StoredVariant :=
  let d := l.drop skip
  if limit = 0 then d else d.take limit.toNat

/-- variants (variant.py lines 139-184): an explicit id list fixes the limit
to its length; the sentinel -1 turns into limit 0 (no limit); otherwise the
limit is skip + nr_of_variants; skip is passed alongside. -/
def variantsList (store : Store) (case_id : String)
    (variant_ids : List String) (category : String) (nr_of_variants : Int)
    (skip : Nat) (sort_key : String) : List StoredVariant :=
  let nr : Int :=
    if !variant_ids.isEmpty then (variant_ids.length : Int)
    else if nr_of_variants == -1 then 0
    else (skip : Int) + nr_of_variants
  mongoSkipLimit skip nr (variantsSorted store case_id variant_ids category sort_key)

/-- The category flip of overlapping (variant.py line 632):
'snv' if the variant is 'sv' else 'sv'. -/
def flipCategory (category : String) : String :=
  if category == "sv" then "snv" else "sv"

/-- One step of the bounding-interval loop of overlapping (variant.py lines
645-654) for the lower bound: `if not region_start` treats None and 0 as
unset, else keep the smaller. -/
def updStart (rs : Option Nat) (gs : Nat) : Option Nat :=
  match rs with
  | none => some gs
  | some r => if r = 0 then some gs else if gs < r then some gs else some r

/-- One step of the bounding-interval loop for the upper bound. -/
def updEnd (re : Option Nat) (ge : Nat) : Option Nat :=
  match re with
  | none => some ge
  | some r => if r = 0 then some ge else if ge > r then some ge else some r

/-- The bounding-interval loop of overlapping (variant.py lines 638-654):
fold over the variant's hgnc ids, skipping genes absent from the catalog. -/
def overlappingRegion (catalog : Nat → Option Gene) :
    Option Nat → Option Nat → List Nat → Option Nat × Option Nat
  | rs, re, [] => (rs, re)
  | rs, re, gid :: rest =>
    match catalog gid with
    | none => overlappingRegion catalog rs re rest
    | some g => overlappingRegion catalog (updStart rs g.start) (updEnd re g.stop) rest

/-- Modelled from the spec: the region part of build_query with optional
bounds (query.py is not under src); a missing bound leaves that side
unbounded (spec sections 4.6 and 9). -/
def overlapQueryMatchB (case_id category variant_type chrom : String)
    (rs re : Option Nat) (v : StoredVariant) : Bool :=
  v.case_id == case_id && v.category == category &&
    v.variant_type == variant_type && v.chromosome == chrom &&
    (match rs with
     | none => true
     | some s => decide (s ≤ v.position)) &&
    (match re with
     | none => true
     | some e => decide (v.position ≤ e))

/-- overlapping (variant.py lines 618-670): flip the category, compute the
genes' bounding interval, query the flipped category for the same case and
variant_type on the variant's chromosome within the interval, sorted by
descending rank_score. -/
def overlapping (catalog : Nat → Option Gene) (store : Store)
    (v : StoredVariant) : List StoredVariant :=
  let category := flipCategory v.category
  let bounds := overlappingRegion catalog none none v.hgnc_ids
  sortDescRank (store.filter
    (overlapQueryMatchB v.case_id category v.variant_type v.chromosome
      bounds.1 bounds.2))

/-! Concrete objects used by counterexamples and witnesses. -/

/-- A raw record that passes the default genome-wide threshold. -/
def rec1 : RawRecord :=
  { chrom := "1", pos := 100, ref := "A", alt := "T", rankScore := some 10 }

/-- A raw record whose processing raises an unexpected (fatal) exception. -/
def recFatal : RawRecord :=
  { chrom := "1", pos := 200, ref := "C", alt := "G", rankScore := some 8
  , fatal := true }

/-- A case with a clinical snv file of two records, the second fatal. -/
def caseA : CaseObj :=
  { id := "c1", owner := "inst1", vcf_snv := some [rec1, recFatal] }

/-- A pre-existing structural variant of the same case and variant_type but a
different category than the snv batch of `caseA`. -/
def vSv : StoredVariant :=
  { id := "sv1", variant_id := "sv1p", case_id := "c1", institute := "inst1"
  , category := "sv", variant_type := "clinical", chromosome := "2"
  , position := 5, rank_score := some 3 }

/-- A variant with a single compound reference whose target is absent. -/
def vOrphanCompound : StoredVariant :=
  { id := "v1", variant_id := "v1p", case_id := "c1", institute := "inst1"
  , category := "snv", variant_type := "clinical", chromosome := "1"
  , position := 10, rank_score := some 5
  , compounds := [{ variant := "tgt", combined_score := 7 }] }

/-- C2 (code bug): update_compounds on a variant whose single compound
reference has no loadable target returns the empty list: the `continue` at
variant.py line 344 silently drops the reference instead of keeping it with
`not_loaded = true` as the spec states (and as the dead `not_loaded = True`
initialization at line 336 intends). -/
theorem update_compounds_drops_missing_target :
    update_compounds (fun _ => none) vOrphanCompound = [] := rfl

/-- C5: the streaming rank filter admits a record exactly when its rank score
is absent, or strictly above the threshold, or the record's chromosome carries
the mitochondrial marker; and the streaming loop of load_variants is
insensitive to the records the filter rejects, for every store and count — the
decision is the per-record `passes`, which takes no region argument, so region
restriction of the stream never alters it. -/
theorem rank_filter_characterization :
    (∀ (t : Int) (r : RawRecord),
      passes t r = true ↔
        (r.rankScore = none ∨ (∃ s, r.rankScore = some s ∧ t < s) ∨
          mt_variant r = true)) ∧
    (∀ (case_obj : CaseObj) (vt cat : String) (t : Int) (store : Store)
        (n : Nat) (recs : List RawRecord),
      streamLoop case_obj vt cat t store n recs =
        streamLoop case_obj vt cat t store n (recs.filter (passes t))) := by
  constructor
  · intro t r
    unfold passes parse_rank_score
    cases hr : r.rankScore with
    | none => simp [hr]
    | some s =>
      simp only [hr, Bool.or_eq_true, decide_eq_true_eq]
      constructor
      · rintro (h | h)
        · exact Or.inr (Or.inl ⟨s, rfl, h⟩)
        · exact Or.inr (Or.inr h)
      · rintro (h | ⟨s', hs', h⟩ | h)
        · cases h
        · cases hs'; exact Or.inl h
        · exact Or.inr h
  · intro case_obj vt cat t store n recs
    induction recs generalizing store n with
    | nil => rfl
    | cons r rs ih =>
      by_cases hp : passes t r = true
      · simp only [streamLoop, List.filter_cons, hp, if_pos rfl]
        by_cases hf : r.fatal = true
        · simp [streamLoop, hp, hf]
        · simp only [streamLoop, hp, Bool.not_eq_true] at hf ⊢
          simp only [hf, Bool.false_eq_true, if_false, if_true]
          cases load_variant store (build_variant r case_obj vt cat) with
          | some store' => exact ih store' (n + 1)
          | none => exact ih store n
      · simp only [streamLoop, List.filter_cons]
        rw [if_neg hp, Bool.not_eq_true] at *
        simp only [hp, Bool.false_eq_true, if_false]
        exact ih store n

/-- C6 (counterexample): a gene-specified load with gene start 1000 and end
2000 does not issue the region 780-7000 the claim states: the padded start is
max(1000-5000, 0) = 0, which the completeness check treats as missing, so
load_variants raises the invalid-region error and inserts nothing. -/
theorem gene_padding_example_not_issued :
    load_variants [] caseA "clinical" "snv" none none none none
        (some { chromosome := "1", start := 1000, stop := 2000 }) =
      ([], LoadOutcome.invalidRegion) ∧
    deriveRegion none none none
        (some { chromosome := "1", start := 1000, stop := 2000 }) none ≠
      RegionDecision.ok (some ("1", 780, 7000)) (-1000) := by
  constructor
  · rfl
  · decide

/-- C6 (amended): for a gene-specified load whose gene has a nonempty
chromosome and start above 5000, load_variants derives the effective query
region by padding the footprint with a 5000-unit flank on each side (the
lower flank is truncated at 0), with the region default threshold; for a gene
with start at most 5000 the clamped start is 0 and the load fails instead
(see the C10 theorem). -/
theorem deriveRegion_gene_padding (g : Gene) (th : Option Int)
    (ch : Option String) (s e : Option Nat)
    (hc : g.chromosome ≠ "") (hs : 5000 < g.start) :
    deriveRegion ch s e (some g) th =
      RegionDecision.ok (some (g.chromosome, g.start - 5000, g.stop + 5000))
        (pyOrInt th (-1000)) := by
  have hmax : max (g.start - 5000) 0 = g.start - 5000 := Nat.max_zero _
  have hchrom : truthyOptStr (some g.chromosome) = true := by
    simp [truthyOptStr, bne_iff_ne, hc]
  have hstart : truthyOptNat (some (g.start - 5000)) = true := by
    simp only [truthyOptNat, bne_iff_ne, ne_eq]
    omega
  have hend : truthyOptNat (some (g.stop + 5000)) = true := by
    simp only [truthyOptNat, bne_iff_ne, ne_eq]
    omega
  unfold deriveRegion
  simp only [hmax]
  simp [hchrom, hstart, hend]

/-- C6 witness: the amended padding at a concrete gene. -/
theorem deriveRegion_gene_padding_witness :
    ("7" : String) ≠ "" ∧ (5000 < 10000) ∧
    deriveRegion none none none
        (some { chromosome := "7", start := 10000, stop := 20000 }) none =
      RegionDecision.ok (some ("7", 5000, 25000)) (pyOrInt none (-1000)) :=
  ⟨by decide, by decide,
    deriveRegion_gene_padding { chromosome := "7", start := 10000, stop := 20000 }
      none none none none (by decide) (by decide)⟩

/-- C10: a gene-specified load whose gene start is at most 5000 (and whose
chromosome is set, with the registered file present so that file resolution
passes) fails with the invalid-region error before touching the store: the
flank-padded start is clamped to 0 and the completeness check `if not (start
and end)` treats 0 as a missing bound. -/
theorem load_variants_gene_low_start_invalid_region
    (store : Store) (case_obj : CaseObj) (vt cat : String) (th : Option Int)
    (ch : Option String) (s e : Option Nat) (g : Gene)
    (file : List RawRecord)
    (hfile : variantFileOf case_obj vt cat = some file)
    (hchrom : g.chromosome ≠ "") (hstart : g.start ≤ 5000) :
    load_variants store case_obj vt cat th ch s e (some g) =
      (store, LoadOutcome.invalidRegion) := by
  have hregion : deriveRegion ch s e (some g) th = RegionDecision.invalid := by
    have hmax : max (g.start - 5000) 0 = 0 := by omega
    have hchromT : truthyOptStr (some g.chromosome) = true := by
      simp [truthyOptStr, bne_iff_ne, hchrom]
    have hstartF : truthyOptNat (some (0 : Nat)) = false := by decide
    unfold deriveRegion
    simp only [hmax]
    simp [hchromT, hstartF]
  unfold load_variants
  rw [hfile, hregion]

/-- C10 witness: the invalid-region failure at the concrete gene of the C6
counterexample scenario, with the file present. -/
theorem load_variants_gene_low_start_witness :
    variantFileOf caseA "clinical" "snv" = some [rec1, recFatal] ∧
    ("1" : String) ≠ "" ∧ (4999 ≤ 5000) ∧
    load_variants [vSv] caseA "clinical" "snv" none none none none
        (some { chromosome := "1", start := 4999, stop := 2000 }) =
      ([vSv], LoadOutcome.invalidRegion) :=
  ⟨rfl, by decide, by decide,
    load_variants_gene_low_start_invalid_region [vSv] caseA "clinical" "snv"
      none none none none { chromosome := "1", start := 4999, stop := 2000 }
      [rec1, recFatal] rfl (by decide) (by decide)⟩

/-- Optional take: no bound when `none`. -/
def takeOpt (k : Option Nat) (l : List StoredVariant) : List StoredVariant :=
  match k with
  | none => l
  | some n => l.take n

/-- The limit as the claim words it: skip plus the requested count, except
that the sentinel -1 means no limit, and an explicit id list fixes the limit
to the id-list length. -/
def claimedLimit (variant_ids : List String) (nr_of_variants : Int)
    (skip : Nat) : Option Nat :=
  if variant_ids ≠ [] then some variant_ids.length
  else if nr_of_variants = -1 then none
  else some (skip + nr_of_variants.toNat)

/-- C9: the variant-listing operation applies skip first and then bounds the
result by the limit of the claim: the id-list length when ids are supplied,
no bound for the sentinel -1, and skip + requested count otherwise.  The
hypotheses keep the requested count in the caller contract (-1 or
nonnegative) and exclude the degenerate always-empty page (no ids, count 0,
skip 0), where the computed limit 0 is Mongo's "no limit". -/
theorem variants_skip_limit (store : Store) (case_id : String)
    (variant_ids : List String) (category : String) (nr_of_variants : Int)
    (skip : Nat) (sort_key : String)
    (hnr : nr_of_variants = -1 ∨ 0 ≤ nr_of_variants)
    (hedge : variant_ids ≠ [] ∨ nr_of_variants ≠ 0 ∨ skip ≠ 0) :
    variantsList store case_id variant_ids category nr_of_variants skip
        sort_key =
      takeOpt (claimedLimit variant_ids nr_of_variants skip)
        ((variantsSorted store case_id variant_ids category sort_key).drop
          skip) := by
  by_cases hids : variant_ids = []
  · subst hids
    by_cases hm1 : nr_of_variants = -1
    · subst hm1
      simp [variantsList, mongoSkipLimit, claimedLimit, takeOpt]
    · have hge : 0 ≤ nr_of_variants := by
        rcases hnr with h | h
        · exact absurd h hm1
        · exact h
      have hne0 : (skip : Int) + nr_of_variants ≠ 0 := by
        rcases hedge with h | h | h
        · exact absurd rfl h
        · omega
        · omega
      have hbeq : (nr_of_variants == (-1 : Int)) = false := by
        simp [hm1]
      have htn : ((skip : Int) + nr_of_variants).toNat =
          skip + nr_of_variants.toNat := by omega
      simp only [variantsList, List.isEmpty_nil, Bool.not_true,
        Bool.false_eq_true, if_false, hbeq, mongoSkipLimit, if_neg hne0,
        htn, claimedLimit, ne_eq, not_true_eq_false, if_false,
        if_neg hm1, takeOpt]
  · have hne : variant_ids.isEmpty = false := by
      simp [List.isEmpty_iff, hids]
    have hlen0 : variant_ids.length ≠ 0 := by
      simpa [List.length_eq_zero] using hids
    have hlen : ((variant_ids.length : Int)) ≠ 0 := by omega
    have htn : ((variant_ids.length : Int)).toNat = variant_ids.length := by
      omega
    simp only [variantsList, hne, Bool.not_false, if_true, mongoSkipLimit,
      if_neg hlen, htn, claimedLimit, ne_eq, hids, not_false_eq_true,
      if_true, takeOpt]

/-- C9 witness: the skip/limit computation applied at a concrete call with
explicit ids, count 10 and skip 3. -/
theorem variants_skip_limit_witness :
    ((10 : Int) = -1 ∨ (0 : Int) ≤ 10) ∧
    ((["p1", "p2"] : List String) ≠ [] ∨ (10 : Int) ≠ 0 ∨ (3 : Nat) ≠ 0) ∧
    variantsList [vSv] "c1" ["p1", "p2"] "sv" 10 3 "variant_rank" =
      takeOpt (claimedLimit ["p1", "p2"] 10 3)
        ((variantsSorted [vSv] "c1" ["p1", "p2"] "sv" "variant_rank").drop
          3) :=
  ⟨Or.inr (by decide), Or.inl (by decide),
    variants_skip_limit [vSv] "c1" ["p1", "p2"] "sv" 10 3 "variant_rank"
      (Or.inr (by decide)) (Or.inl (by decide))⟩

/-- contains on string lists coincides with membership. -/
theorem strContains_iff (l : List String) (a : String) :
    (l.contains a = true) ↔ a ∈ l := List.elem_iff

/-- contains on string lists is false exactly for non-members. -/
theorem strContains_eq_false_iff (l : List String) (a : String) :
    (l.contains a = false) ↔ a ∉ l := by
  rw [← strContains_iff]
  cases h : l.contains a <;> simp

/-- C8: check_causatives scoped by a case first removes the storage ids the
case already lists as its own causatives, resolves the remaining institute
causative storage ids to positional variant_ids through the variant
collection, and returns exactly the case's variant documents whose
variant_id matches one of those resolutions. -/
theorem check_causatives_case_scope (store : Store) (cases : List CaseObj)
    (c : CaseObj) (inst0 : Option String) (v : StoredVariant) :
    v ∈ check_causatives store cases (some c) inst0 ↔
      (v ∈ store ∧ v.case_id = c.id ∧
        ∃ w, w ∈ store ∧ w.variant_id = v.variant_id ∧
          w.id ∈ get_causatives cases c.owner ∧
          w.id ∉ c.causatives.getD []) := by
  simp only [check_causatives]
  by_cases h0 : (get_causatives cases c.owner).isEmpty = true
  · have h0' : get_causatives cases c.owner = [] := by
      simpa [List.isEmpty_iff] using h0
    simp [h0, h0']
  · simp only [h0, Bool.false_eq_true, if_false, List.mem_filter,
      Bool.and_eq_true, beq_iff_eq, strContains_iff, List.mem_map,
      List.mem_filter, Bool.not_eq_true', Bool.not_eq_eq_eq_not]
    constructor
    · rintro ⟨hv, ⟨w, ⟨⟨hw, hwmem, hwno⟩, hwvid⟩⟩, hcase⟩
      refine ⟨hv, hcase, w, hw, hwvid, hwmem, ?_⟩
      exact (strContains_eq_false_iff _ _).mp (by simpa using hwno)
    · rintro ⟨hv, hcase, w, hw, hwvid, hmem, hnot⟩
      refine ⟨hv, ⟨w, ⟨⟨hw, hmem, ?_⟩, hwvid⟩⟩, hcase⟩
      simpa using (strContains_eq_false_iff _ _).mpr hnot

/-! Helper lemmas: the stable descending sort, the rank assignment, and the
streaming loop. -/

/-- Descending order between adjacent sorted variants: the later one's score
is at most the earlier one's. -/
def descBy (a b : StoredVariant) : Prop :=
  scoreLe b.rank_score a.rank_score = true

theorem scoreLe_refl (a : Option Int) : scoreLe a a = true := by
  cases a <;> simp [scoreLe]

theorem scoreLe_total (a b : Option Int) :
    scoreLe a b = true ∨ scoreLe b a = true := by
  cases a <;> cases b <;> simp [scoreLe] <;> omega

theorem scoreLe_trans {a b c : Option Int} (h1 : scoreLe a b = true)
    (h2 : scoreLe b c = true) : scoreLe a c = true := by
  cases a <;> cases b <;> cases c <;> simp [scoreLe] at * <;> omega

theorem insertByScore_perm (v : StoredVariant) (l : List StoredVariant) :
    List.Perm (insertByScore v l) (v :: l) := by
  induction l with
  | nil => exact List.Perm.refl _
  | cons w ws ih =>
    by_cases h : scoreLe w.rank_score v.rank_score = true
    · rw [insertByScore, if_pos h]
    · rw [insertByScore, if_neg h]
      exact List.Perm.trans (List.Perm.cons w ih) (List.Perm.swap v w ws)

theorem sortDescRank_perm (l : List StoredVariant) :
    List.Perm (sortDescRank l) l := by
  induction l with
  | nil => exact List.Perm.refl _
  | cons v vs ih =>
    rw [sortDescRank]
    exact List.Perm.trans (insertByScore_perm v (sortDescRank vs))
      (List.Perm.cons v ih)

theorem insertByScore_pairwise (v : StoredVariant) (l : List StoredVariant)
    (h : l.Pairwise descBy) : (insertByScore v l).Pairwise descBy := by
  induction l with
  | nil => simp [insertByScore]
  | cons w ws ih =>
    rw [List.pairwise_cons] at h
    obtain ⟨hw, hws⟩ := h
    by_cases hc : scoreLe w.rank_score v.rank_score = true
    · rw [insertByScore, if_pos hc, List.pairwise_cons]
      refine ⟨?_, List.pairwise_cons.mpr ⟨hw, hws⟩⟩
      intro x hx
      rcases List.mem_cons.mp hx with rfl | hx
      · exact hc
      · exact scoreLe_trans (hw x hx) hc
    · rw [insertByScore, if_neg hc, List.pairwise_cons]
      refine ⟨?_, ih hws⟩
      intro x hx
      rw [(insertByScore_perm v ws).mem_iff, List.mem_cons] at hx
      rcases hx with rfl | hx
      · rcases scoreLe_total w.rank_score x.rank_score with h1 | h1
        · exact absurd h1 hc
        · exact h1
      · exact hw x hx

theorem sortDescRank_pairwise (l : List StoredVariant) :
    (sortDescRank l).Pairwise descBy := by
  induction l with
  | nil => simp [sortDescRank]
  | cons v vs ih => exact insertByScore_pairwise v (sortDescRank vs) ih

theorem mem_idsOf {store : Store} {x : String} :
    x ∈ idsOf store ↔ ∃ w ∈ store, w.id = x := by
  simp [idsOf, List.mem_map]

theorem lookupA_rankPairs_of_mem (l : List StoredVariant) (n : Nat)
    (v : StoredVariant) (hv : v ∈ l) :
    ∃ r, lookupA (rankPairs n l) v.id = some r := by
  induction l generalizing n with
  | nil => cases hv
  | cons w ws ih =>
    rcases List.mem_cons.mp hv with rfl | hv
    · refine ⟨n, ?_⟩
      simp [rankPairs, lookupA, List.find?]
    · by_cases hw : (w.id == v.id) = true
      · refine ⟨n, ?_⟩
        simp [rankPairs, lookupA, List.find?, hw]
      · obtain ⟨r, hr⟩ := ih (n + 1) hv
        refine ⟨r, ?_⟩
        simp only [rankPairs, lookupA, List.find?, hw]
        simpa [lookupA] using hr

theorem map_lookupA_rankPairs (l : List StoredVariant) (n : Nat)
    (h : (idsOf l).Nodup) :
    l.map (fun v => lookupA (rankPairs n l) v.id) =
      (List.range' n l.length).map some := by
  induction l generalizing n with
  | nil => rfl
  | cons v vs ih =>
    have hnd : v.id ∉ idsOf vs ∧ (idsOf vs).Nodup := by
      simpa [idsOf, List.nodup_cons] using h
    have hhead : lookupA (rankPairs n (v :: vs)) v.id = some n := by
      simp [rankPairs, lookupA, List.find?]
    have htail : vs.map (fun w => lookupA (rankPairs n (v :: vs)) w.id) =
        vs.map (fun w => lookupA (rankPairs (n + 1) vs) w.id) := by
      apply List.map_congr_left
      intro w hw
      have hvw : v.id ≠ w.id := by
        intro hEq
        exact hnd.1 (mem_idsOf.mpr ⟨w, hw, hEq.symm⟩)
      have hne : (v.id == w.id) = false := by
        simp [beq_eq_false_iff_ne, hvw]
      simp [rankPairs, lookupA, List.find?, hne]
    have hrange : List.range' n (vs.length + 1) =
        n :: List.range' (n + 1) vs.length := rfl
    simp only [List.map_cons, List.length_cons, hrange]
    rw [hhead, htail, ih (n + 1) hnd.2]

theorem lookupA_rankPairs_get (l : List StoredVariant) (n p : Nat)
    (hp : p < l.length) (h : (idsOf l).Nodup) :
    lookupA (rankPairs n l) ((l.get ⟨p, hp⟩).id) = some (n + p) := by
  induction l generalizing n p with
  | nil => cases hp
  | cons v vs ih =>
    have hnd : v.id ∉ idsOf vs ∧ (idsOf vs).Nodup := by
      simpa [idsOf, List.nodup_cons] using h
    cases p with
    | zero =>
      simp [rankPairs, lookupA, List.find?]
    | succ p =>
      have hp' : p < vs.length := by simpa using hp
      have hget : (v :: vs).get ⟨p + 1, hp⟩ = vs[p] := rfl
      have hmem : vs[p].id ∈ idsOf vs :=
        mem_idsOf.mpr ⟨vs[p], List.getElem_mem hp', rfl⟩
      have hvw : ¬ v.id = vs[p].id := by
        intro hEq
        exact hnd.1 (hEq ▸ hmem)
      have hne : (v.id == vs[p].id) = false := by
        simp [hvw]
      rw [hget]
      have hstep : lookupA (rankPairs (n + 1) vs) vs[p].id = some (n + 1 + p) := by
        have h0 := ih (n + 1) p hp' hnd.2
        simpa using h0
      simp only [rankPairs, lookupA, List.find?, hne]
      simpa [lookupA, Nat.add_assoc, Nat.add_comm 1 p] using hstep

/-- applyAssignment only changes variant_rank. -/
theorem applyAssignment_fields (assign : List (String × Nat))
    (v : StoredVariant) :
    (applyAssignment assign v).id = v.id ∧
    (applyAssignment assign v).rank_score = v.rank_score ∧
    (applyAssignment assign v).case_id = v.case_id ∧
    (applyAssignment assign v).category = v.category ∧
    (applyAssignment assign v).variant_type = v.variant_type ∧
    (applyAssignment assign v).compounds = v.compounds := by
  unfold applyAssignment
  cases lookupA assign v.id with
  | none => exact ⟨rfl, rfl, rfl, rfl, rfl, rfl⟩
  | some r => exact ⟨rfl, rfl, rfl, rfl, rfl, rfl⟩

theorem applyAssignment_scope (assign : List (String × Nat))
    (case_id category variant_type : String) (v : StoredVariant) :
    inScopeB case_id category variant_type (applyAssignment assign v) =
      inScopeB case_id category variant_type v := by
  unfold applyAssignment
  cases lookupA assign v.id with
  | none => rfl
  | some r => rfl

theorem applyAssignment_rank (assign : List (String × Nat))
    (v : StoredVariant) (r : Nat) (h : lookupA assign v.id = some r) :
    (applyAssignment assign v).variant_rank = some r := by
  unfold applyAssignment
  rw [h]

/-- refreshFun only changes compounds. -/
theorem refreshFun_fields (regionVars : Store) (inR : StoredVariant → Bool)
    (v : StoredVariant) :
    (refreshFun regionVars inR v).id = v.id ∧
    (refreshFun regionVars inR v).rank_score = v.rank_score ∧
    (refreshFun regionVars inR v).case_id = v.case_id ∧
    (refreshFun regionVars inR v).category = v.category ∧
    (refreshFun regionVars inR v).variant_type = v.variant_type ∧
    (refreshFun regionVars inR v).variant_rank = v.variant_rank := by
  unfold refreshFun
  split
  · exact ⟨rfl, rfl, rfl, rfl, rfl, rfl⟩
  · exact ⟨rfl, rfl, rfl, rfl, rfl, rfl⟩

/-- The rank invariant of one (case_id, category, variant_type) scope: the
variant_rank values of the scope are exactly some 1 .. some N, and a smaller
rank never carries a smaller rank_score. -/
def rankedScope (store : Store) (case_id category variant_type : String) :
    Prop :=
  (((store.filter (inScopeB case_id category variant_type)).map
      (fun v => v.variant_rank)).Perm
    ((List.range'
        1 (store.filter (inScopeB case_id category variant_type)).length).map
      some)) ∧
  (∀ u ∈ store.filter (inScopeB case_id category variant_type),
   ∀ w ∈ store.filter (inScopeB case_id category variant_type),
   ∀ i j : Nat, u.variant_rank = some i → w.variant_rank = some j → i ≤ j →
     scoreLe w.rank_score u.rank_score = true)

theorem update_variants_filter (s : Store) (cid cat vt : String) :
    (update_variants s cid cat vt).filter (inScopeB cid cat vt) =
      (s.filter (inScopeB cid cat vt)).map
        (applyAssignment (rankPairs 1 (sortDescRank (s.filter (inScopeB cid cat vt))))) := by
  unfold update_variants
  rw [List.map_filter]
  congr 1
  apply List.filter_congr
  intro a _
  exact applyAssignment_scope _ cid cat vt a

theorem idsOf_filter_nodup (s : Store) (p : StoredVariant → Bool)
    (h : (idsOf s).Nodup) : (idsOf (s.filter p)).Nodup :=
  h.sublist ((List.filter_sublist s).map (fun v => v.id))

/-- C3 core: update_variants establishes the rank invariant for its scope. -/
theorem update_variants_ranked (s : Store) (cid cat vt : String)
    (h : (idsOf s).Nodup) :
    rankedScope (update_variants s cid cat vt) cid cat vt := by
  have hfilter := update_variants_filter s cid cat vt
  have hscopeNodup : (idsOf (s.filter (inScopeB cid cat vt))).Nodup :=
    idsOf_filter_nodup s _ h
  have hpermL :
      List.Perm (sortDescRank (s.filter (inScopeB cid cat vt)))
        (s.filter (inScopeB cid cat vt)) := sortDescRank_perm _
  have hLNodup :
      (idsOf (sortDescRank (s.filter (inScopeB cid cat vt)))).Nodup := by
    exact ((hpermL.map (fun v => v.id)).nodup_iff).mpr hscopeNodup
  have hG :
      ∀ v ∈ sortDescRank (s.filter (inScopeB cid cat vt)),
        (applyAssignment (rankPairs 1 (sortDescRank (s.filter (inScopeB cid cat vt)))) v).variant_rank =
          lookupA (rankPairs 1 (sortDescRank (s.filter (inScopeB cid cat vt)))) v.id := by
    intro v hv
    obtain ⟨r, hr⟩ := lookupA_rankPairs_of_mem _ 1 v hv
    rw [applyAssignment_rank _ v r hr, hr]
  constructor
  · rw [hfilter, List.map_map, List.length_map]
    have hlen : (s.filter (inScopeB cid cat vt)).length =
        (sortDescRank (s.filter (inScopeB cid cat vt))).length :=
      hpermL.length_eq.symm
    rw [hlen]
    refine List.Perm.trans
      (List.Perm.map _ hpermL.symm) ?_
    have hmap :
        (sortDescRank (s.filter (inScopeB cid cat vt))).map
            ((fun v => v.variant_rank) ∘
              applyAssignment (rankPairs 1 (sortDescRank (s.filter (inScopeB cid cat vt))))) =
          (sortDescRank (s.filter (inScopeB cid cat vt))).map
            (fun v => lookupA (rankPairs 1 (sortDescRank (s.filter (inScopeB cid cat vt)))) v.id) := by
      apply List.map_congr_left
      intro v hv
      exact hG v hv
    rw [hmap, map_lookupA_rankPairs _ 1 hLNodup]
  · intro u hu w hw i j hi hj hij
    rw [hfilter] at hu hw
    have hu' :
        u ∈ (sortDescRank (s.filter (inScopeB cid cat vt))).map
          (applyAssignment (rankPairs 1 (sortDescRank (s.filter (inScopeB cid cat vt))))) :=
      ((hpermL.symm.map _).mem_iff).mp hu
    have hw' :
        w ∈ (sortDescRank (s.filter (inScopeB cid cat vt))).map
          (applyAssignment (rankPairs 1 (sortDescRank (s.filter (inScopeB cid cat vt))))) :=
      ((hpermL.symm.map _).mem_iff).mp hw
    obtain ⟨a, ha, rfl⟩ := List.mem_map.mp hu'
    obtain ⟨b, hb, rfl⟩ := List.mem_map.mp hw'
    obtain ⟨⟨p, hp⟩, hpa⟩ := List.mem_iff_get.mp ha
    obtain ⟨⟨q, hq⟩, hqb⟩ := List.mem_iff_get.mp hb
    have hrp := lookupA_rankPairs_get _ 1 p hp hLNodup
    have hrq := lookupA_rankPairs_get _ 1 q hq hLNodup
    rw [hpa] at hrp
    rw [hqb] at hrq
    have hru := applyAssignment_rank (rankPairs 1 (sortDescRank (s.filter (inScopeB cid cat vt)))) a _ hrp
    have hrw := applyAssignment_rank (rankPairs 1 (sortDescRank (s.filter (inScopeB cid cat vt)))) b _ hrq
    rw [hru] at hi
    rw [hrw] at hj
    have hip : i = 1 + p := (Option.some.injEq _ _).mp hi.symm
    have hjq : j = 1 + q := (Option.some.injEq _ _).mp hj.symm
    have hsa :
        (applyAssignment (rankPairs 1 (sortDescRank (s.filter (inScopeB cid cat vt)))) a).rank_score =
          a.rank_score := (applyAssignment_fields _ a).2.1
    have hsb :
        (applyAssignment (rankPairs 1 (sortDescRank (s.filter (inScopeB cid cat vt)))) b).rank_score =
          b.rank_score := (applyAssignment_fields _ b).2.1
    rw [hsa, hsb]
    by_cases hpq : p = q
    · subst hpq
      have hab : a = b := by rw [← hpa, ← hqb]
      subst hab
      exact scoreLe_refl _
    · have hlt : p < q := by omega
      have hpair :=
        List.pairwise_iff_get.mp
          (sortDescRank_pairwise (s.filter (inScopeB cid cat vt)))
          ⟨p, hp⟩ ⟨q, hq⟩ hlt
      rw [hpa, hqb] at hpair
      exact hpair

/-- The rank invariant survives any per-document rewrite that preserves
rank, score and the scope fields. -/
theorem rankedScope_map (s : Store) (cid cat vt : String)
    (f : StoredVariant → StoredVariant)
    (hrank : ∀ v, (f v).variant_rank = v.variant_rank)
    (hscore : ∀ v, (f v).rank_score = v.rank_score)
    (hscope : ∀ v, inScopeB cid cat vt (f v) = inScopeB cid cat vt v)
    (h : rankedScope s cid cat vt) : rankedScope (s.map f) cid cat vt := by
  obtain ⟨h1, h2⟩ := h
  have hfilter : (s.map f).filter (inScopeB cid cat vt) =
      (s.filter (inScopeB cid cat vt)).map f := by
    rw [List.map_filter]
    congr 1
    apply List.filter_congr
    intro a _
    simp only [Function.comp]
    exact hscope a
  constructor
  · rw [hfilter, List.map_map, List.length_map]
    have hmap : (s.filter (inScopeB cid cat vt)).map
          ((fun v => v.variant_rank) ∘ f) =
        (s.filter (inScopeB cid cat vt)).map (fun v => v.variant_rank) := by
      apply List.map_congr_left
      intro v _
      exact hrank v
    rw [hmap]
    exact h1
  · intro u hu w hw i j hi hj hij
    rw [hfilter] at hu hw
    obtain ⟨a, ha, rfl⟩ := List.mem_map.mp hu
    obtain ⟨b, hb, rfl⟩ := List.mem_map.mp hw
    rw [hrank a] at hi
    rw [hrank b] at hj
    rw [hscore a, hscore b]
    exact h2 a ha b hb i j hi hj hij

theorem load_variant_eq_none_iff (store : Store) (b : StoredVariant) :
    load_variant store b = none ↔ b.id ∈ idsOf store := by
  unfold load_variant
  split
  case isTrue h =>
    simp only [true_iff]
    obtain ⟨w, hw, hwid⟩ := List.any_eq_true.mp h
    exact mem_idsOf.mpr ⟨w, hw, beq_iff_eq.mp hwid⟩
  case isFalse h =>
    simp only [false_iff, reduceCtorEq]
    intro hmem
    obtain ⟨w, hw, hwid⟩ := mem_idsOf.mp hmem
    exact h (List.any_eq_true.mpr ⟨w, hw, beq_iff_eq.mpr hwid⟩)

theorem load_variant_eq_some (store : Store) (b : StoredVariant) (s' : Store)
    (h : load_variant store b = some s') :
    s' = store ++ [b] ∧ b.id ∉ idsOf store := by
  unfold load_variant at h
  split at h
  case isTrue h' => cases h
  case isFalse h' =>
    refine ⟨(Option.some.injEq _ _).mp h.symm, ?_⟩
    intro hmem
    obtain ⟨w, hw, hwid⟩ := mem_idsOf.mp hmem
    exact h' (List.any_eq_true.mpr ⟨w, hw, beq_iff_eq.mpr hwid⟩)

/-- Inversion of a completed streaming loop: the final store is the input
store plus the freshly built batch documents (all scoped to the batch), the
inserted counter grows by exactly the number of appended documents, id
uniqueness is preserved, and every record that passed the filter was not
fatal and has its built id present afterwards. -/
theorem streamLoop_done_inv (case_obj : CaseObj) (vt cat : String) (t : Int)
    (recs : List RawRecord) :
    ∀ (store : Store) (n : Nat) (sA : Store) (m : Nat),
    streamLoop case_obj vt cat t store n recs = StreamRes.done sA m →
    (∃ tail, sA = store ++ tail ∧
      (∀ v ∈ tail, v.case_id = case_obj.id ∧ v.variant_type = vt ∧
        v.category = cat ∧ v.variant_rank = none)) ∧
    n ≤ m ∧ sA.length + n = store.length + m ∧
    ((idsOf store).Nodup → (idsOf sA).Nodup) ∧
    (∀ r ∈ recs, passes t r = true → r.fatal = false ∧
      (build_variant r case_obj vt cat).id ∈ idsOf sA) := by
  induction recs with
  | nil =>
    intro store n sA m h
    rw [streamLoop] at h
    injection h with h1 h2
    subst h1
    subst h2
    exact ⟨⟨[], by simp, by simp⟩, Nat.le_refl _, by omega, fun hn => hn,
      by simp⟩
  | cons r rs ih =>
    intro store n sA m h
    rw [streamLoop] at h
    by_cases hp : passes t r = true
    · rw [if_pos hp] at h
      by_cases hfat : r.fatal = true
      · rw [if_pos hfat] at h
        cases h
      · rw [if_neg hfat] at h
        cases hlv : load_variant store (build_variant r case_obj vt cat) with
        | some store1 =>
          rw [hlv] at h
          obtain ⟨hs1, hfresh⟩ := load_variant_eq_some _ _ _ hlv
          subst hs1
          obtain ⟨⟨tail, htail, htprop⟩, hle, hlen, hnod, hrec⟩ :=
            ih _ _ _ _ h
          have hids : idsOf sA =
              idsOf store ++ idsOf ([build_variant r case_obj vt cat] ++ tail) := by
            rw [htail, List.append_assoc]
            simp [idsOf]
          refine ⟨⟨build_variant r case_obj vt cat :: tail, ?_, ?_⟩, ?_, ?_,
            ?_, ?_⟩
          · rw [htail, List.append_assoc]
            rfl
          · intro v hv
            rcases List.mem_cons.mp hv with rfl | hv
            · exact ⟨rfl, rfl, rfl, rfl⟩
            · exact htprop v hv
          · omega
          · rw [List.length_append] at hlen
            simp only [List.length_singleton] at hlen
            omega
          · intro hstore
            apply hnod
            simp only [idsOf, List.map_append, List.map_cons, List.map_nil]
            rw [List.nodup_append]
            refine ⟨hstore, List.nodup_singleton _, ?_⟩
            intro x hx
            simp only [List.mem_singleton]
            intro hxe
            subst hxe
            exact hfresh hx
          · intro r' hr' hp'
            rcases List.mem_cons.mp hr' with rfl | hr'
            · refine ⟨by simpa using hfat, ?_⟩
              rw [htail]
              have : (build_variant r' case_obj vt cat).id ∈
                  idsOf (store ++ [build_variant r' case_obj vt cat]) := by
                simp [idsOf]
              simp only [idsOf, List.map_append] at this ⊢
              exact List.mem_append_left _ this
            · exact hrec r' hr' hp'
        | none =>
          rw [hlv] at h
          have hdup := (load_variant_eq_none_iff _ _).mp hlv
          obtain ⟨⟨tail, htail, htprop⟩, hle, hlen, hnod, hrec⟩ :=
            ih _ _ _ _ h
          refine ⟨⟨tail, htail, htprop⟩, hle, hlen, hnod, ?_⟩
          intro r' hr' hp'
          rcases List.mem_cons.mp hr' with rfl | hr'
          · refine ⟨by simpa using hfat, ?_⟩
            rw [htail]
            simp only [idsOf, List.map_append]
            exact List.mem_append_left _ hdup
          · exact hrec r' hr' hp'
    · rw [if_neg hp] at h
      obtain ⟨⟨tail, htail, htprop⟩, hle, hlen, hnod, hrec⟩ := ih _ _ _ _ h
      refine ⟨⟨tail, htail, htprop⟩, hle, hlen, hnod, ?_⟩
      intro r' hr' hp'
      rcases List.mem_cons.mp hr' with rfl | hr'
      · exact absurd hp' hp
      · exact hrec r' hr' hp'

/-- Inversion of an aborted streaming loop: the store at the abort point is
the input store plus batch-scoped documents. -/
theorem streamLoop_aborted_inv (case_obj : CaseObj) (vt cat : String)
    (t : Int) (recs : List RawRecord) :
    ∀ (store : Store) (n : Nat) (ps : Store),
    streamLoop case_obj vt cat t store n recs = StreamRes.aborted ps →
    ∃ tail, ps = store ++ tail ∧
      ∀ v ∈ tail, v.case_id = case_obj.id ∧ v.variant_type = vt := by
  induction recs with
  | nil =>
    intro store n ps h
    rw [streamLoop] at h
    cases h
  | cons r rs ih =>
    intro store n ps h
    rw [streamLoop] at h
    by_cases hp : passes t r = true
    · rw [if_pos hp] at h
      by_cases hfat : r.fatal = true
      · rw [if_pos hfat] at h
        injection h with h1
        subst h1
        exact ⟨[], by simp, by simp⟩
      · rw [if_neg hfat] at h
        cases hlv : load_variant store (build_variant r case_obj vt cat) with
        | some store1 =>
          rw [hlv] at h
          obtain ⟨hs1, _⟩ := load_variant_eq_some _ _ _ hlv
          subst hs1
          obtain ⟨tail, htail, htprop⟩ := ih _ _ _ h
          refine ⟨build_variant r case_obj vt cat :: tail, ?_, ?_⟩
          · rw [htail, List.append_assoc]
            rfl
          · intro v hv
            rcases List.mem_cons.mp hv with rfl | hv
            · exact ⟨rfl, rfl⟩
            · exact htprop v hv
        | none =>
          rw [hlv] at h
          exact ih _ _ _ h
    · rw [if_neg hp] at h
      exact ih _ _ _ h

/-- A streaming loop whose every passing record is already present (and not
fatal) is a no-op: nothing is inserted and the store is unchanged. -/
theorem streamLoop_noop (case_obj : CaseObj) (vt cat : String) (t : Int)
    (recs : List RawRecord) :
    ∀ (store : Store) (n : Nat),
    (∀ r ∈ recs, passes t r = true → r.fatal = false ∧
      (build_variant r case_obj vt cat).id ∈ idsOf store) →
    streamLoop case_obj vt cat t store n recs = StreamRes.done store n := by
  induction recs with
  | nil =>
    intro store n _
    rfl
  | cons r rs ih =>
    intro store n hall
    rw [streamLoop]
    by_cases hp : passes t r = true
    · rw [if_pos hp]
      obtain ⟨hfat, hdup⟩ := hall r (List.mem_cons_self r rs) hp
      rw [if_neg (by simp [hfat])]
      rw [(load_variant_eq_none_iff _ _).mpr hdup]
      exact ih store n (fun r' hr' => hall r' (List.mem_cons_of_mem r hr'))
    · rw [if_neg hp]
      exact ih store n (fun r' hr' => hall r' (List.mem_cons_of_mem r hr'))

/-- Inversion of a successful load_variants call. -/
theorem load_variants_ok_inv (store : Store) (case_obj : CaseObj)
    (vt cat : String) (th : Option Int) (ch : Option String)
    (s e : Option Nat) (g : Option Gene) (store' : Store) (n : Nat)
    (h : load_variants store case_obj vt cat th ch s e g =
      (store', LoadOutcome.ok n)) :
    ∃ file region threshold sA,
      variantFileOf case_obj vt cat = some file ∧
      deriveRegion ch s e g th = RegionDecision.ok region threshold ∧
      streamLoop case_obj vt cat threshold store 0 (streamRecords file region) =
        StreamRes.done sA n ∧
      store' = (match region with
        | none => update_variants sA case_obj.id cat vt
        | some (c, rs, re) =>
          refreshRegion (update_variants sA case_obj.id cat vt) case_obj.id
            vt cat c rs re) := by
  unfold load_variants at h
  split at h
  next => simp at h
  next file hf =>
    split at h
    next => simp at h
    next region threshold hd =>
      split at h
      next ps hs => simp at h
      next sA m hs =>
        cases region with
        | none =>
          simp only [Prod.mk.injEq, LoadOutcome.ok.injEq] at h
          exact ⟨file, none, threshold, sA, hf, hd, by rw [h.2] at hs; exact hs,
            h.1.symm⟩
        | some rse =>
          obtain ⟨c, rs, re⟩ := rse
          simp only [Prod.mk.injEq, LoadOutcome.ok.injEq] at h
          exact ⟨file, some (c, rs, re), threshold, sA, hf, hd,
            by rw [h.2] at hs; exact hs, h.1.symm⟩

theorem inScopeB_congr (cid cat vt : String) (u v : StoredVariant)
    (h1 : u.case_id = v.case_id) (h2 : u.category = v.category)
    (h3 : u.variant_type = v.variant_type) :
    inScopeB cid cat vt u = inScopeB cid cat vt v := by
  unfold inScopeB
  rw [h1, h2, h3]

/-- C3: after a successful load_variants call, the batch scope
(case, category, variant_type) carries variant_rank values that are exactly a
dense permutation of 1..N in descending rank_score order, computed over the
full persisted scope (pre-existing and newly inserted documents alike). -/
theorem load_variants_rank_dense (store : Store) (case_obj : CaseObj)
    (vt cat : String) (th : Option Int) (ch : Option String)
    (s e : Option Nat) (g : Option Gene) (store' : Store) (n : Nat)
    (hnodup : (idsOf store).Nodup)
    (h : load_variants store case_obj vt cat th ch s e g =
      (store', LoadOutcome.ok n)) :
    rankedScope store' case_obj.id cat vt := by
  obtain ⟨file, region, threshold, sA, hf, hd, hs, hst⟩ :=
    load_variants_ok_inv store case_obj vt cat th ch s e g store' n h
  have hAN : (idsOf sA).Nodup :=
    ((streamLoop_done_inv case_obj vt cat threshold _ _ _ _ _ hs).2.2.2.1)
      hnodup
  have hbase := update_variants_ranked sA case_obj.id cat vt hAN
  cases region with
  | none =>
    rw [hst]
    exact hbase
  | some rse =>
    obtain ⟨c, rs, re⟩ := rse
    rw [hst]
    simp only [refreshRegion]
    exact rankedScope_map _ _ _ _ _
      (fun v => (refreshFun_fields _ _ v).2.2.2.2.2)
      (fun v => (refreshFun_fields _ _ v).2.1)
      (fun v => inScopeB_congr _ _ _ _ _
        (refreshFun_fields _ _ v).2.2.1
        (refreshFun_fields _ _ v).2.2.2.1
        (refreshFun_fields _ _ v).2.2.2.2.1)
      hbase

/-- Two records of a second demo case with distinct positive scores. -/
def recB1 : RawRecord :=
  { chrom := "1", pos := 50, ref := "A", alt := "C", rankScore := some 7 }

/-- Second record of the demo case. -/
def recB2 : RawRecord :=
  { chrom := "1", pos := 60, ref := "G", alt := "C", rankScore := some 9 }

/-- A demo case whose clinical snv file loads cleanly. -/
def caseB : CaseObj :=
  { id := "c2", owner := "inst1", vcf_snv := some [recB1, recB2] }

/-- C3 witness: a concrete successful load of two records establishes the
dense descending rank permutation for its scope. -/
theorem load_variants_rank_dense_witness :
    (idsOf ([] : Store)).Nodup ∧
    load_variants [] caseB "clinical" "snv" none none none none none =
      ((load_variants [] caseB "clinical" "snv" none none none none none).1,
        LoadOutcome.ok 2) ∧
    rankedScope
      (load_variants [] caseB "clinical" "snv" none none none none none).1
      caseB.id "snv" "clinical" :=
  ⟨by decide, by decide,
    load_variants_rank_dense [] caseB "clinical" "snv" none none none none
      none
      (load_variants [] caseB "clinical" "snv" none none none none none).1 2
      (by decide) (by decide)⟩

/-- Inversion of a load_variants call that failed during streaming: the
rollback deletes by (case_id, variant_type) only — no category — from the
store as it stood at the abort point. -/
theorem load_variants_ingestion_inv (store : Store) (case_obj : CaseObj)
    (vt cat : String) (th : Option Int) (ch : Option String)
    (s e : Option Nat) (g : Option Gene) (store' : Store)
    (h : load_variants store case_obj vt cat th ch s e g =
      (store', LoadOutcome.ingestion)) :
    ∃ file region threshold ps,
      variantFileOf case_obj vt cat = some file ∧
      deriveRegion ch s e g th = RegionDecision.ok region threshold ∧
      streamLoop case_obj vt cat threshold store 0 (streamRecords file region) =
        StreamRes.aborted ps ∧
      store' = delete_variants ps case_obj.id vt none := by
  unfold load_variants at h
  split at h
  next => simp at h
  next file hf =>
    split at h
    next => simp at h
    next region threshold hd =>
      split at h
      next ps hs =>
        simp only [Prod.mk.injEq] at h
        exact ⟨file, region, threshold, ps, hf, hd, hs, h.1.symm⟩
      next sA m hs => simp at h

/-- C1 (amended): when a fatal error aborts streaming, the rollback deletes
every variant of the batch's (case_id, variant_type) regardless of category —
including documents of that slice that existed before the batch — so the
post-failure store is exactly the pre-batch store minus the whole
(case_id, variant_type) slice; variants of other cases or variant_types are
untouched, and the original error surfaces as the ingestion outcome. -/
theorem load_variants_fatal_rollback (store : Store) (case_obj : CaseObj)
    (vt cat : String) (th : Option Int) (ch : Option String)
    (s e : Option Nat) (g : Option Gene) (store' : Store)
    (h : load_variants store case_obj vt cat th ch s e g =
      (store', LoadOutcome.ingestion)) :
    store' = delete_variants store case_obj.id vt none ∧
    (∀ v, v ∈ store' ↔
      (v ∈ store ∧ ¬(v.case_id = case_obj.id ∧ v.variant_type = vt))) := by
  obtain ⟨file, region, threshold, ps, hf, hd, hs, hst⟩ :=
    load_variants_ingestion_inv store case_obj vt cat th ch s e g store' h
  obtain ⟨tail, htail, htprop⟩ :=
    streamLoop_aborted_inv case_obj vt cat threshold _ _ _ _ hs
  have hdel : delete_variants ps case_obj.id vt none =
      delete_variants store case_obj.id vt none := by
    rw [htail]
    unfold delete_variants
    rw [List.filter_append]
    have htnil : tail.filter (fun v =>
        !(v.case_id == case_obj.id && v.variant_type == vt &&
          (match (none : Option String) with
           | none => true
           | some c => v.category == c))) = [] := by
      rw [List.filter_eq_nil]
      intro v hv
      obtain ⟨h1, h2⟩ := htprop v hv
      simp [h1, h2]
    rw [htnil, List.append_nil]
  have hmain : store' = delete_variants store case_obj.id vt none := by
    rw [hst, hdel]
  refine ⟨hmain, ?_⟩
  intro v
  rw [hmain]
  unfold delete_variants
  rw [List.mem_filter]
  constructor
  · rintro ⟨hv, hp⟩
    refine ⟨hv, ?_⟩
    rintro ⟨hc, ht⟩
    simp [hc, ht] at hp
  · rintro ⟨hv, hp⟩
    refine ⟨hv, ?_⟩
    simp only [Bool.not_eq_true']
    by_cases hc : v.case_id = case_obj.id
    · by_cases ht : v.variant_type = vt
      · exact absurd ⟨hc, ht⟩ hp
      · simp [ht]
    · simp [hc]

/-- C1 witness: the rollback shape applied at the concrete fatal run. -/
theorem load_variants_fatal_rollback_witness :
    load_variants [vSv] caseA "clinical" "snv" none none none none none =
      (([] : Store), LoadOutcome.ingestion) ∧
    (([] : Store) = delete_variants [vSv] caseA.id "clinical" none ∧
      (∀ v, v ∈ ([] : Store) ↔
        (v ∈ [vSv] ∧ ¬(v.case_id = caseA.id ∧ v.variant_type = "clinical")))) :=
  ⟨by decide,
    load_variants_fatal_rollback [vSv] caseA "clinical" "snv" none none none
      none none [] (by decide)⟩

/-- C1 (counterexample): a fatal snv batch for case c1 deletes the
pre-existing sv variant of the same case and variant_type — the rollback is
not bounded to the batch's category and does not restore the pre-batch state
of the scope; one record had been inserted before the abort, and the error
surfaces as the ingestion outcome. -/
theorem load_variants_rollback_crosses_categories :
    vSv.category ≠ "snv" ∧
    vSv ∈ ([vSv] : Store) ∧
    streamLoop caseA "clinical" "snv" 0 [vSv] 0 [rec1, recFatal] =
      StreamRes.aborted [vSv, build_variant rec1 caseA "clinical" "snv"] ∧
    load_variants [vSv] caseA "clinical" "snv" none none none none none =
      ([], LoadOutcome.ingestion) ∧
    vSv ∉
      (load_variants [vSv] caseA "clinical" "snv" none none none none
        none).1 := by
  refine ⟨by decide, by decide, by decide, by decide, by decide⟩

/-- Merge of an accumulated lower bound with the minimum of the remaining
starts. -/
def mergeMin : Option Nat → Option Nat → Option Nat
  | none, m => m
  | some r, none => some r
  | some r, some m => some (min r m)

/-- Merge of an accumulated upper bound with the maximum of the remaining
ends. -/
def mergeMax : Option Nat → Option Nat → Option Nat
  | none, m => m
  | some r, none => some r
  | some r, some m => some (max r m)

/-- The claim-side minimum gene start over a gene list. -/
def specMinStart : List Gene → Option Nat
  | [] => none
  | g :: gs =>
    match specMinStart gs with
    | none => some g.start
    | some m => some (min g.start m)

/-- The claim-side maximum gene end over a gene list. -/
def specMaxEnd : List Gene → Option Nat
  | [] => none
  | g :: gs =>
    match specMaxEnd gs with
    | none => some g.stop
    | some m => some (max g.stop m)

theorem updStart_merge (r0 : Option Nat) (gs : Nat) (m : Option Nat)
    (h : r0 = none ∨ ∃ r, r0 = some r ∧ 0 < r) :
    mergeMin (updStart r0 gs) m =
      mergeMin r0
        (match m with
         | none => some gs
         | some mm => some (min gs mm)) := by
  rcases h with rfl | ⟨r, rfl, hr⟩
  · cases m with
    | none => rfl
    | some mm => rfl
  · have hupd : updStart (some r) gs = some (min r gs) := by
      simp only [updStart]
      rw [if_neg (by omega)]
      by_cases h2 : gs < r
      · rw [if_pos h2]
        congr 1
        omega
      · rw [if_neg h2]
        congr 1
        omega
    rw [hupd]
    cases m with
    | none => rfl
    | some mm =>
      show some (min (min r gs) mm) = some (min r (min gs mm))
      congr 1
      omega

theorem updStart_pos (r0 : Option Nat) (gs : Nat)
    (h : r0 = none ∨ ∃ r, r0 = some r ∧ 0 < r) (hg : 0 < gs) :
    updStart r0 gs = none ∨ ∃ r, updStart r0 gs = some r ∧ 0 < r := by
  rcases h with rfl | ⟨r, rfl, hr⟩
  · exact Or.inr ⟨gs, rfl, hg⟩
  · simp only [updStart]
    rw [if_neg (by omega)]
    by_cases h2 : gs < r
    · rw [if_pos h2]
      exact Or.inr ⟨gs, rfl, hg⟩
    · rw [if_neg h2]
      exact Or.inr ⟨r, rfl, hr⟩

theorem updEnd_merge (r0 : Option Nat) (ge : Nat) (m : Option Nat) :
    mergeMax (updEnd r0 ge) m =
      mergeMax r0
        (match m with
         | none => some ge
         | some mm => some (max ge mm)) := by
  cases r0 with
  | none =>
    cases m with
    | none => rfl
    | some mm => rfl
  | some r =>
    by_cases h0 : r = 0
    · subst h0
      have hupd : updEnd (some 0) ge = some ge := by
        simp [updEnd]
      rw [hupd]
      cases m with
      | none =>
        show some ge = some (max 0 ge)
        congr 1
        omega
      | some mm =>
        show some (max ge mm) = some (max 0 (max ge mm))
        congr 1
        omega
    · have hupd : updEnd (some r) ge = some (max r ge) := by
        simp only [updEnd]
        rw [if_neg h0]
        by_cases h2 : ge > r
        · rw [if_pos h2]
          congr 1
          omega
        · rw [if_neg h2]
          congr 1
          omega
      rw [hupd]
      cases m with
      | none => rfl
      | some mm =>
        show some (max (max r ge) mm) = some (max r (max ge mm))
        congr 1
        omega

/-- The bounding-interval loop computes the minimum start and maximum end of
the resolvable genes, merged with its accumulators, provided every resolved
start is positive (a 0 accumulator would be treated as unset by the code). -/
theorem overlappingRegion_spec (catalog : Nat → Option Gene)
    (ids : List Nat) :
    ∀ (rs re : Option Nat),
    (rs = none ∨ ∃ r, rs = some r ∧ 0 < r) →
    (∀ g ∈ ids.filterMap catalog, 0 < g.start) →
    overlappingRegion catalog rs re ids =
      (mergeMin rs (specMinStart (ids.filterMap catalog)),
       mergeMax re (specMaxEnd (ids.filterMap catalog))) := by
  induction ids with
  | nil =>
    intro rs re _ _
    simp only [overlappingRegion, List.filterMap_nil, specMinStart,
      specMaxEnd]
    cases rs with
    | none =>
      cases re with
      | none => rfl
      | some r => rfl
    | some r =>
      cases re with
      | none => rfl
      | some r2 => rfl
  | cons gid rest ih =>
    intro rs re hrs hpos
    cases hc : catalog gid with
    | none =>
      have hfm : (gid :: rest).filterMap catalog = rest.filterMap catalog := by
        simp [List.filterMap_cons, hc]
      simp only [overlappingRegion, hc]
      rw [hfm]
      exact ih rs re hrs (by rw [← hfm]; exact hpos)
    | some g =>
      have hfm : (gid :: rest).filterMap catalog =
          g :: rest.filterMap catalog := by
        simp [List.filterMap_cons, hc]
      have hg : 0 < g.start := by
        apply hpos
        rw [hfm]
        exact List.mem_cons_self _ _
      have hpos' : ∀ g' ∈ rest.filterMap catalog, 0 < g'.start := by
        intro g' hg'
        apply hpos
        rw [hfm]
        exact List.mem_cons_of_mem _ hg'
      simp only [overlappingRegion, hc]
      rw [ih (updStart rs g.start) (updEnd re g.stop)
        (updStart_pos rs g.start hrs hg) hpos', hfm]
      rw [updStart_merge rs g.start _ hrs, updEnd_merge re g.stop _]
      cases hms : specMinStart (rest.filterMap catalog) with
      | none =>
        cases hme : specMaxEnd (rest.filterMap catalog) with
        | none => simp [specMinStart, specMaxEnd, hms, hme]
        | some mm => simp [specMinStart, specMaxEnd, hms, hme]
      | some m =>
        cases hme : specMaxEnd (rest.filterMap catalog) with
        | none => simp [specMinStart, specMaxEnd, hms, hme]
        | some mm => simp [specMinStart, specMaxEnd, hms, hme]

/-- C7 (amended): overlapping always queries the flipped category (which is
never the variant's own category, so no variant of the variant's category is
returned for the case), restricted to the same case and variant_type; its
result is sorted by descending rank_score (Mongo null-last ordering); and
whenever every resolvable gene of the variant has a positive start, the query
bounds are exactly the minimum gene start and maximum gene end (a gene start
of 0 would be treated as an unset accumulator by the loop; the upper bound
needs no such proviso). -/
theorem overlapping_flipped_and_bounds (catalog : Nat → Option Gene)
    (store : Store) (v : StoredVariant)
    (hpos : ∀ g ∈ v.hgnc_ids.filterMap catalog, 0 < g.start) :
    flipCategory v.category ≠ v.category ∧
    (∀ w ∈ overlapping catalog store v,
      w.category = flipCategory v.category ∧ w.case_id = v.case_id ∧
        w.variant_type = v.variant_type ∧ w.chromosome = v.chromosome) ∧
    (overlapping catalog store v).Pairwise
      (fun a b => scoreLe b.rank_score a.rank_score = true) ∧
    overlappingRegion catalog none none v.hgnc_ids =
      (specMinStart (v.hgnc_ids.filterMap catalog),
       specMaxEnd (v.hgnc_ids.filterMap catalog)) := by
  refine ⟨?_, ?_, ?_, ?_⟩
  · unfold flipCategory
    by_cases h : v.category = "sv"
    · rw [if_pos (by simp [h])]
      rw [h]
      decide
    · rw [if_neg (by simp [h])]
      intro hEq
      exact h hEq.symm
  · intro w hw
    unfold overlapping at hw
    rw [(sortDescRank_perm _).mem_iff, List.mem_filter] at hw
    obtain ⟨_, hq⟩ := hw
    unfold overlapQueryMatchB at hq
    simp only [Bool.and_eq_true, beq_iff_eq] at hq
    exact ⟨hq.1.1.1.1.2, hq.1.1.1.1.1, hq.1.1.1.2, hq.1.1.2⟩
  · unfold overlapping
    exact sortDescRank_pairwise _
  · exact overlappingRegion_spec catalog v.hgnc_ids none none (Or.inl rfl)
      hpos

/-- A catalog with two positive-start genes for the C7 witness. -/
def catalogPos : Nat → Option Gene := fun gid =>
  if gid = 1 then some { chromosome := "1", start := 100, stop := 200 }
  else if gid = 2 then some { chromosome := "1", start := 50, stop := 150 }
  else none

/-- A structural variant touching the two catalog genes. -/
def vSvGenesPos : StoredVariant :=
  { id := "svg2", variant_id := "svg2p", case_id := "c1"
  , institute := "inst1", category := "sv", variant_type := "clinical"
  , chromosome := "1", position := 120, rank_score := some 4
  , hgnc_ids := [1, 2] }

/-- C7 witness: the amended statement at a concrete catalog and variant. -/
theorem overlapping_flipped_and_bounds_witness :
    (∀ g ∈ List.filterMap catalogPos vSvGenesPos.hgnc_ids, 0 < g.start) ∧
    (flipCategory vSvGenesPos.category ≠ vSvGenesPos.category ∧
      (∀ w ∈ overlapping catalogPos [] vSvGenesPos,
        w.category = flipCategory vSvGenesPos.category ∧
          w.case_id = vSvGenesPos.case_id ∧
          w.variant_type = vSvGenesPos.variant_type ∧
          w.chromosome = vSvGenesPos.chromosome) ∧
      (overlapping catalogPos [] vSvGenesPos).Pairwise
        (fun a b => scoreLe b.rank_score a.rank_score = true) ∧
      overlappingRegion catalogPos none none vSvGenesPos.hgnc_ids =
        (specMinStart (vSvGenesPos.hgnc_ids.filterMap catalogPos),
         specMaxEnd (vSvGenesPos.hgnc_ids.filterMap catalogPos))) :=
  ⟨by decide, overlapping_flipped_and_bounds catalogPos [] vSvGenesPos
    (by decide)⟩

/-- A catalog whose first gene starts at 0, exposing the falsy-accumulator
slip of the bounding-interval loop. -/
def catalogZero : Nat → Option Gene := fun gid =>
  if gid = 1 then some { chromosome := "1", start := 0, stop := 10 }
  else if gid = 2 then some { chromosome := "1", start := 5, stop := 8 }
  else none

/-- A structural variant whose genes have bounding interval 0-10. -/
def vSvZero : StoredVariant :=
  { id := "svz", variant_id := "svzp", case_id := "c1", institute := "inst1"
  , category := "sv", variant_type := "clinical", chromosome := "1"
  , position := 3, rank_score := some 4, hgnc_ids := [1, 2] }

/-- A single-nucleotide variant lying inside the genes' true bounding
interval (position 2 in 0-10) for the same case, type and chromosome. -/
def wSnvZero : StoredVariant :=
  { id := "wz", variant_id := "wzp", case_id := "c1", institute := "inst1"
  , category := "snv", variant_type := "clinical", chromosome := "1"
  , position := 2, rank_score := some 6 }

/-- C7 (counterexample): with gene starts 0 and 5, the loop's `if not
region_start` treats the accumulated 0 as unset and yields lower bound 5
instead of the minimum 0, so a flipped-category variant of the same case,
variant_type and chromosome at position 2 — inside the genes' union bounding
interval 0-10 — is not returned, contradicting the claim. -/
theorem overlapping_not_min_bound :
    overlappingRegion catalogZero none none vSvZero.hgnc_ids =
      (some 5, some 10) ∧
    specMinStart (vSvZero.hgnc_ids.filterMap catalogZero) = some 0 ∧
    wSnvZero.category = flipCategory vSvZero.category ∧
    wSnvZero.case_id = vSvZero.case_id ∧
    wSnvZero.variant_type = vSvZero.variant_type ∧
    wSnvZero.chromosome = vSvZero.chromosome ∧
    wSnvZero.position ≤ 10 ∧
    wSnvZero ∉ overlapping catalogZero [wSnvZero] vSvZero := by decide

/-- The fields that the rank assignment depends on: id, rank_score and the
scope triple. -/
def KeyEq (a b : StoredVariant) : Prop :=
  a.id = b.id ∧ a.rank_score = b.rank_score ∧ a.case_id = b.case_id ∧
    a.category = b.category ∧ a.variant_type = b.variant_type

theorem keyEq_trans {a b c : StoredVariant} (h1 : KeyEq a b)
    (h2 : KeyEq b c) : KeyEq a c :=
  ⟨h1.1.trans h2.1, h1.2.1.trans h2.2.1, h1.2.2.1.trans h2.2.2.1,
    h1.2.2.2.1.trans h2.2.2.2.1, h1.2.2.2.2.trans h2.2.2.2.2⟩

theorem forall₂_map_rel {Rel : StoredVariant → StoredVariant → Prop}
    (f : StoredVariant → StoredVariant) (hf : ∀ a, Rel a (f a)) :
    ∀ l : Store, List.Forall₂ Rel l (l.map f) := by
  intro l
  induction l with
  | nil => exact List.Forall₂.nil
  | cons a l ih => exact List.Forall₂.cons (hf a) ih

theorem forall₂_mem_right {α β : Type} {R : α → β → Prop} {l : List α}
    {l' : List β} (h : List.Forall₂ R l l') (b : β) (hb : b ∈ l') :
    ∃ a ∈ l, R a b := by
  induction h with
  | nil => cases hb
  | cons hab htail ih =>
    rcases List.mem_cons.mp hb with rfl | hb
    · exact ⟨_, List.mem_cons_self _ _, hab⟩
    · obtain ⟨a, ha, hr⟩ := ih hb
      exact ⟨a, List.mem_cons_of_mem _ ha, hr⟩

theorem forall₂_keyEq_filter {s s' : Store} (cid cat vt : String)
    (h : List.Forall₂ KeyEq s s') :
    List.Forall₂ KeyEq (s.filter (inScopeB cid cat vt))
      (s'.filter (inScopeB cid cat vt)) := by
  induction h with
  | nil => exact List.Forall₂.nil
  | cons hab htail ih =>
    rename_i a b l l'
    have hsc : inScopeB cid cat vt a = inScopeB cid cat vt b :=
      inScopeB_congr cid cat vt a b hab.2.2.1 hab.2.2.2.1 hab.2.2.2.2
    by_cases hp : inScopeB cid cat vt a = true
    · rw [List.filter_cons, List.filter_cons, if_pos hp, if_pos (hsc ▸ hp)]
      exact List.Forall₂.cons hab ih
    · rw [List.filter_cons, List.filter_cons, if_neg hp,
        if_neg (hsc ▸ hp)]
      exact ih

theorem forall₂_keyEq_insert {v v' : StoredVariant} {l l' : Store}
    (hv : KeyEq v v') (h : List.Forall₂ KeyEq l l') :
    List.Forall₂ KeyEq (insertByScore v l) (insertByScore v' l') := by
  induction h with
  | nil => exact List.Forall₂.cons hv List.Forall₂.nil
  | cons hab htail ih =>
    rename_i a b la lb
    have hcmp : scoreLe a.rank_score v.rank_score =
        scoreLe b.rank_score v'.rank_score := by
      rw [hab.2.1, hv.2.1]
    by_cases hc : scoreLe a.rank_score v.rank_score = true
    · rw [insertByScore, insertByScore, if_pos hc, if_pos (hcmp ▸ hc)]
      exact List.Forall₂.cons hv (List.Forall₂.cons hab htail)
    · rw [insertByScore, insertByScore, if_neg hc, if_neg (hcmp ▸ hc)]
      exact List.Forall₂.cons hab ih

theorem forall₂_keyEq_sort {l l' : Store} (h : List.Forall₂ KeyEq l l') :
    List.Forall₂ KeyEq (sortDescRank l) (sortDescRank l') := by
  induction h with
  | nil => exact List.Forall₂.nil
  | cons hab htail ih =>
    rw [sortDescRank, sortDescRank]
    exact forall₂_keyEq_insert hab ih

theorem rankPairs_congr {l l' : Store} (h : List.Forall₂ KeyEq l l') :
    ∀ n, rankPairs n l = rankPairs n l' := by
  induction h with
  | nil => intro n; rfl
  | cons hab htail ih =>
    intro n
    rw [rankPairs, rankPairs, hab.1, ih (n + 1)]

theorem assignment_congr {s s' : Store} (cid cat vt : String)
    (h : List.Forall₂ KeyEq s s') :
    assignment s cid cat vt = assignment s' cid cat vt := by
  unfold assignment
  exact rankPairs_congr (forall₂_keyEq_sort (forall₂_keyEq_filter cid cat vt h)) 1

theorem applyAssignment_keyEq (assign : List (String × Nat))
    (v : StoredVariant) : KeyEq v (applyAssignment assign v) := by
  obtain ⟨h1, h2, h3, h4, h5, _⟩ := applyAssignment_fields assign v
  exact ⟨h1.symm, h2.symm, h3.symm, h4.symm, h5.symm⟩

theorem refreshFun_keyEq (regionVars : Store) (inR : StoredVariant → Bool)
    (v : StoredVariant) : KeyEq v (refreshFun regionVars inR v) := by
  obtain ⟨h1, h2, h3, h4, h5, _⟩ := refreshFun_fields regionVars inR v
  exact ⟨h1.symm, h2.symm, h3.symm, h4.symm, h5.symm⟩

/-- Releasing update_variants on a store whose ranks already come from an
equal-keyed assignment changes no (id, rank) pair. -/
theorem update_variants_stable (sA store1 : Store) (cid cat vt : String)
    (hpar : List.Forall₂
      (fun a v => KeyEq a v ∧
        v.variant_rank =
          (applyAssignment (assignment sA cid cat vt) a).variant_rank)
      sA store1) :
    (update_variants store1 cid cat vt).map
        (fun v => (v.id, v.variant_rank)) =
      store1.map (fun v => (v.id, v.variant_rank)) := by
  have hkeys : List.Forall₂ KeyEq sA store1 := by
    refine List.Forall₂.imp ?_ hpar
    intro a b hab
    exact hab.1
  have hassign : assignment store1 cid cat vt = assignment sA cid cat vt :=
    (assignment_congr cid cat vt hkeys).symm
  unfold update_variants
  rw [hassign, List.map_map]
  apply List.map_congr_left
  intro v hv
  obtain ⟨a, ha, hKey, hrank⟩ := forall₂_mem_right hpar v hv
  simp only [Function.comp]
  have hid : (applyAssignment (assignment sA cid cat vt) v).id = v.id :=
    (applyAssignment_fields _ v).1
  cases hlook : lookupA (assignment sA cid cat vt) v.id with
  | some r =>
    have hva : a.id = v.id := hKey.1
    have hlooka : lookupA (assignment sA cid cat vt) a.id = some r := by
      rw [hva, hlook]
    have h1 : (applyAssignment (assignment sA cid cat vt) v).variant_rank =
        some r := applyAssignment_rank _ v r hlook
    have h2 : (applyAssignment (assignment sA cid cat vt) a).variant_rank =
        some r := applyAssignment_rank _ a r hlooka
    rw [Prod.mk.injEq]
    exact ⟨hid, by rw [h1, hrank, h2]⟩
  | none =>
    have h1 : applyAssignment (assignment sA cid cat vt) v = v := by
      unfold applyAssignment
      rw [hlook]
    rw [h1]

theorem idsOf_update_variants (s : Store) (cid cat vt : String) :
    idsOf (update_variants s cid cat vt) = idsOf s := by
  unfold update_variants idsOf
  rw [List.map_map]
  apply List.map_congr_left
  intro v _
  simp only [Function.comp]
  exact (applyAssignment_fields _ v).1

theorem map_idRank_refreshRegion (s : Store)
    (cid vt cat c : String) (rs re : Nat) :
    (refreshRegion s cid vt cat c rs re).map
        (fun v => (v.id, v.variant_rank)) =
      s.map (fun v => (v.id, v.variant_rank)) := by
  simp only [refreshRegion]
  rw [List.map_map]
  apply List.map_congr_left
  intro v _
  simp only [Function.comp]
  rw [Prod.mk.injEq]
  exact ⟨(refreshFun_fields _ _ v).1, (refreshFun_fields _ _ v).2.2.2.2.2⟩

theorem idsOf_refreshRegion (s : Store) (cid vt cat c : String)
    (rs re : Nat) :
    idsOf (refreshRegion s cid vt cat c rs re) = idsOf s := by
  simp only [refreshRegion, idsOf]
  rw [List.map_map]
  apply List.map_congr_left
  intro v _
  simp only [Function.comp]
  exact (refreshFun_fields _ _ v).1

/-- C4: re-running load_variants with identical input and scope after a
successful run inserts 0 new records (every record resolves to a duplicate,
which is swallowed), leaves every variant's rank unchanged, and the first
run's returned count equals the number of newly inserted documents. -/
theorem load_variants_idempotent (store : Store) (case_obj : CaseObj)
    (vt cat : String) (th : Option Int) (ch : Option String)
    (s e : Option Nat) (g : Option Gene) (store1 : Store) (n : Nat)
    (hnodup : (idsOf store).Nodup)
    (h1 : load_variants store case_obj vt cat th ch s e g =
      (store1, LoadOutcome.ok n)) :
    (load_variants store1 case_obj vt cat th ch s e g).2 =
      LoadOutcome.ok 0 ∧
    (load_variants store1 case_obj vt cat th ch s e g).1.map
        (fun v => (v.id, v.variant_rank)) =
      store1.map (fun v => (v.id, v.variant_rank)) ∧
    store1.length = store.length + n := by
  obtain ⟨file, region, threshold, sA, hf, hd, hs, hst⟩ :=
    load_variants_ok_inv store case_obj vt cat th ch s e g store1 n h1
  obtain ⟨⟨tail, htail, _⟩, _, hlenA, hnodupP, hrec⟩ :=
    streamLoop_done_inv case_obj vt cat threshold _ _ _ _ _ hs
  cases region with
  | none =>
    have hids1 : idsOf store1 = idsOf sA := by
      rw [hst]
      exact idsOf_update_variants sA case_obj.id cat vt
    have hnoop : streamLoop case_obj vt cat threshold store1 0
        (streamRecords file none) = StreamRes.done store1 0 := by
      apply streamLoop_noop
      intro r hr hp
      obtain ⟨hfat, hmem⟩ := hrec r hr hp
      exact ⟨hfat, by rw [hids1]; exact hmem⟩
    have hpar : List.Forall₂
        (fun a v => KeyEq a v ∧
          v.variant_rank =
            (applyAssignment
              (assignment sA case_obj.id cat vt) a).variant_rank)
        sA store1 := by
      rw [hst]
      unfold update_variants
      exact forall₂_map_rel _
        (fun a => ⟨applyAssignment_keyEq _ a, rfl⟩) sA
    have hrun2 : load_variants store1 case_obj vt cat th ch s e g =
        (update_variants store1 case_obj.id cat vt, LoadOutcome.ok 0) := by
      simp only [load_variants, hf, hd, hnoop]
    rw [hrun2]
    refine ⟨rfl, ?_, ?_⟩
    · exact update_variants_stable sA store1 case_obj.id cat vt hpar
    · have : store1.length = sA.length := by
        rw [hst]
        unfold update_variants
        rw [List.length_map]
      omega
  | some rse =>
    obtain ⟨c, rs, re⟩ := rse
    have hids1 : idsOf store1 = idsOf sA := by
      rw [hst, idsOf_refreshRegion, idsOf_update_variants]
    have hnoop : streamLoop case_obj vt cat threshold store1 0
        (streamRecords file (some (c, rs, re))) = StreamRes.done store1 0 := by
      apply streamLoop_noop
      intro r hr hp
      obtain ⟨hfat, hmem⟩ := hrec r hr hp
      exact ⟨hfat, by rw [hids1]; exact hmem⟩
    have hpar : List.Forall₂
        (fun a v => KeyEq a v ∧
          v.variant_rank =
            (applyAssignment
              (assignment sA case_obj.id cat vt) a).variant_rank)
        sA store1 := by
      rw [hst]
      simp only [refreshRegion]
      unfold update_variants
      rw [List.map_map]
      apply forall₂_map_rel
      intro a
      constructor
      · exact keyEq_trans (applyAssignment_keyEq _ a)
          (refreshFun_keyEq _ _ _)
      · exact (refreshFun_fields _ _ _).2.2.2.2.2
    have hrun2 : load_variants store1 case_obj vt cat th ch s e g =
        (refreshRegion (update_variants store1 case_obj.id cat vt)
          case_obj.id vt cat c rs re, LoadOutcome.ok 0) := by
      simp only [load_variants, hf, hd, hnoop]
    rw [hrun2]
    refine ⟨rfl, ?_, ?_⟩
    · rw [map_idRank_refreshRegion]
      exact update_variants_stable sA store1 case_obj.id cat vt hpar
    · have : store1.length = sA.length := by
        rw [hst]
        simp only [refreshRegion]
        unfold update_variants
        rw [List.length_map, List.length_map]
      omega

/-- C4 witness: the concrete two-record load of caseB re-run on its own
result inserts nothing and keeps every (id, rank) pair. -/
theorem load_variants_idempotent_witness :
    (idsOf ([] : Store)).Nodup ∧
    load_variants [] caseB "clinical" "snv" none none none none none =
      ((load_variants [] caseB "clinical" "snv" none none none none none).1,
        LoadOutcome.ok 2) ∧
    ((load_variants
        (load_variants [] caseB "clinical" "snv" none none none none none).1
        caseB "clinical" "snv" none none none none none).2 =
      LoadOutcome.ok 0 ∧
    (load_variants
        (load_variants [] caseB "clinical" "snv" none none none none none).1
        caseB "clinical" "snv" none none none none none).1.map
        (fun v => (v.id, v.variant_rank)) =
      (load_variants [] caseB "clinical" "snv" none none none none
        none).1.map (fun v => (v.id, v.variant_rank)) ∧
    (load_variants [] caseB "clinical" "snv" none none none none
      none).1.length = ([] : Store).length + 2) :=
  ⟨by decide, by decide,
    load_variants_idempotent [] caseB "clinical" "snv" none none none none
      none
      (load_variants [] caseB "clinical" "snv" none none none none none).1 2
      (by decide) (by decide)⟩
